import Mathlib

/-!
Verification development for the open-telemorph-prime telemetry engine.

The Go source is shallowly embedded as follows.

Representation conventions, used throughout:
- Go strings are Lean String values; all inputs exercised here are ASCII, so
  the Go byte indices used by the parser coincide with character indices.
- Go time.Time instants and time.Duration values are Int nanoseconds since
  the Unix epoch (Go stores wall-clock seconds plus nanoseconds; every
  instant in this development is within range, and int64 wrap is modelled
  explicitly where the code calls UnixNano).
- Go float64 metric values are modelled as rationals.  All arithmetic the
  claims exercise (sums, differences, division by a non-zero elapsed time)
  is exact in float64-free form; division by zero, which Go turns into an
  infinity or NaN, yields 0 in the rational model and is noted at each
  definition it could affect.
- Go map[string]string values are association lists with the Go upsert
  semantics (insert replaces an existing key in place, otherwise appends);
  Go map iteration order is arbitrary, and each place the source iterates a
  map is either order-insensitive or sorts afterwards, as noted there.
- Fallible Go functions returning (T, error) are modelled as Except String T;
  error message text is reproduced where the source builds it from literals
  and kept as a short description where Go library error text is involved.
-/

deriving instance DecidableEq for Except

namespace Telemorph

/-! ## Go string primitives -/

/-- Whitespace recognised by strings.TrimSpace; the source only ever trims
ASCII space characters, so the ASCII subset of unicode.IsSpace suffices. -/
def goIsSpace (c : Char) : Bool :=
  c = ' ' || c = '\t' || c = '\n' || c = '\r'

/-- strings.TrimSpace: drop leading and trailing whitespace. -/
def goTrimSpace (s : String) : String :=
  ⟨((s.data.dropWhile goIsSpace).reverse.dropWhile goIsSpace).reverse⟩

/-- strings.Index on character lists: smallest index where the needle is a
prefix of the remaining suffix. -/
def goIndexChars (hay needle : List Char) : Option Nat :=
  ((List.range (hay.length + 1)).filter
    (fun i => needle.isPrefixOf (hay.drop i))).head?

/-- strings.LastIndex on character lists: largest such index. -/
def goLastIndexChars (hay needle : List Char) : Option Nat :=
  ((List.range (hay.length + 1)).filter
    (fun i => needle.isPrefixOf (hay.drop i))).getLast?

/-- strings.Index, as an option instead of the Go sentinel -1. -/
def goIndex (s sub : String) : Option Nat := goIndexChars s.data sub.data

/-- strings.LastIndex, as an option instead of the Go sentinel -1. -/
def goLastIndex (s sub : String) : Option Nat := goLastIndexChars s.data sub.data

/-- strings.Contains. -/
def goContains (s sub : String) : Bool := (goIndex s sub).isSome

/-- The Go slice expression s[a:b] (byte indices; ASCII inputs here). -/
def goSlice (s : String) (a b : Nat) : String :=
  ⟨(s.data.drop a).take (b - a)⟩

/-- The Go slice expression s[a:]. -/
def goSliceFrom (s : String) (a : Nat) : String :=
  ⟨s.data.drop a⟩

/-- strings.HasSuffix. -/
def goHasSuffix (s suffix : String) : Bool :=
  suffix.data.isSuffixOf s.data

/-- strings.HasPrefix. -/
def goStartsWith (s pre : String) : Bool :=
  pre.data.isPrefixOf s.data

/-- Splitting a character list at every occurrence of a separator character. -/
def splitCharsOn (sep : Char) : List Char → List (List Char)
  | [] => [[]]
  | c :: rest =>
    let tail := splitCharsOn sep rest
    if c = sep then
      [] :: tail
    else
      match tail with
      | [] => [[c]]
      | t :: ts => (c :: t) :: ts

/-- strings.Split with a one-character separator (the source only splits on
a comma).  Go returns the one-element list containing the input when the
separator does not occur, including for the empty string. -/
def goSplitChar (s : String) (sep : Char) : List String :=
  (splitCharsOn sep s.data).map (fun cs => ⟨cs⟩)

/-- strings.SplitN with n = 2: split at the first occurrence of the
separator only, returning one part when the separator is absent. -/
def goSplitN2 (s : String) (sep : String) : List String :=
  match goIndex s sep with
  | none => [s]
  | some i => [goSlice s 0 i, goSliceFrom s (i + sep.length)]

/-- Decimal digit test used by strconv.Atoi. -/
def goIsDigit (c : Char) : Bool := '0' ≤ c && c ≤ '9'

/-- Digits of a character list read as a natural number. -/
def digitsToNat : List Char → Nat → Nat
  | [], acc => acc
  | c :: rest, acc => digitsToNat rest (acc * 10 + (c.toNat - '0'.toNat))

/-- strconv.Atoi: an optional sign followed by at least one digit.  The Go
int64 overflow error is not modelled; every literal the claims parse is
small. -/
def goAtoi (s : String) : Except String Int :=
  let chars := s.data
  let (neg, digits) :=
    match chars with
    | '+' :: rest => (false, rest)
    | '-' :: rest => (true, rest)
    | _ => (false, chars)
  if digits.isEmpty || !(digits.all goIsDigit) then
    .error ("strconv.Atoi: parsing " ++ s ++ ": invalid syntax")
  else
    let n : Int := Int.ofNat (digitsToNat digits 0)
    .ok (if neg then -n else n)

/-- Lexicographic byte order on ASCII strings, matching the byte comparison
used by sort.Strings. -/
def strLtChars : List Char → List Char → Bool
  | [], [] => false
  | [], _ :: _ => true
  | _ :: _, [] => false
  | a :: as, b :: bs =>
    if a.toNat < b.toNat then true
    else if b.toNat < a.toNat then false
    else strLtChars as bs

/-- Non-strict version of the sort.Strings comparison. -/
def strLe (a b : String) : Bool := !(strLtChars b.data a.data)

/-- Space-joined rendering of a string slice, as produced inside the
brackets of the Go expression fmt.Sprintf with verb v. -/
def joinSpace : List String → String
  | [] => ""
  | [s] => s
  | s :: rest => s ++ " " ++ joinSpace rest

/-! ## Go map helpers -/

/-- Association-list lookup (Go map read; keys are unique by construction). -/
def mapGet (m : List (String × String)) (k : String) : Option String :=
  (m.find? (fun kv => kv.1 = k)).map (fun kv => kv.2)

/-- Go map write m[k] = v: replace in place when the key is present,
otherwise append. -/
def mapSet (m : List (String × String)) (k v : String) : List (String × String) :=
  if m.any (fun kv => kv.1 = k) then
    m.map (fun kv => if kv.1 = k then (k, v) else kv)
  else
    m ++ [(k, v)]

/-! ## Data model (backend/internal/query/promql, backend/internal/storage) -/

/-- Label sets: Go map[string]string as an association list. -/
abbrev Labels := List (String × String)

/-- MetricPoint from the evaluator: timestamp (Int nanoseconds for the Go
time.Time), float64 value as a rational, and a label map. -/
structure MetricPoint where
  timestamp : Int
  value : ℚ
  labels : Labels
deriving DecidableEq, Repr

/-- MetricSeries from the evaluator. -/
structure MetricSeries where
  metricName : String
  labels : Labels
  points : List MetricPoint
deriving DecidableEq, Repr

/-- QueryResult from the evaluator; the type field is one of vector, matrix
or scalar. -/
structure QueryResult where
  series : List MetricSeries
  type : String
deriving DecidableEq, Repr

/-- Aggregation from the parser: operation name, grouping labels of the by
clause, and the excluded labels of the never-populated without clause. -/
structure Aggregation where
  operation : String
  By : List String
  without : List String
deriving DecidableEq, Repr

/-- Query from the parser.  The Go zero values used by the source to mean
absence are kept: an empty function string means no function, a zero range
and offset mean none, and the aggregation pointer is an option. -/
structure Query where
  metricName : String
  labels : Labels
  function : String
  range : Int
  offset : Int
  aggregation : Option Aggregation
deriving DecidableEq, Repr

/-- A plain metric-and-labels query with the given name and labels, as the
parser builds it: every other field is the Go zero value. -/
def mkMetricQuery (name : String) (labels : Labels) : Query :=
  ⟨name, labels, "", 0, 0, none⟩

/-! ## Query parser (backend/internal/query/promql/parser.go) -/

/-- parseLabels: a comma-separated list of key=value pairs; whitespace is
trimmed, empty fragments skipped, surrounding double quotes on the value
stripped, and repeated keys overwrite (Go map write). -/
def parseLabelsLoop (labels : Labels) : List String → Except String Labels
  | [] => .ok labels
  | pairRaw :: rest =>
    let pair := goTrimSpace pairRaw
    if pair = "" then
      parseLabelsLoop labels rest
    else
      match goSplitN2 pair "=" with
      | [key0, value0] =>
        let key := goTrimSpace key0
        let value1 := goTrimSpace value0
        let value :=
          if value1.length ≥ 2 && value1.data.head? = some '"' &&
              value1.data.getLast? = some '"' then
            goSlice value1 1 (value1.length - 1)
          else value1
        parseLabelsLoop (mapSet labels key value) rest
      | _ => .error ("invalid label selector: " ++ pair)

/-- parseLabels entry point. -/
def parseLabels (selector : String) : Except String Labels :=
  if selector = "" then .ok []
  else parseLabelsLoop [] (goSplitChar selector ',')

/-- parseMetricWithLabels: metric name with an optional brace-delimited
label selector. -/
def parseMetricWithLabels (query : String) : Except String Query :=
  match goIndex query "\x7b" with
  | none => .ok (mkMetricQuery (goTrimSpace query) [])
  | some labelStart =>
    match goIndex query "\x7d" with
    | none => .error "missing closing brace in label selector"
    | some labelEnd =>
      let metricName := goTrimSpace (goSlice query 0 labelStart)
      let labelSelector := goTrimSpace (goSlice query (labelStart + 1) labelEnd)
      match parseLabels labelSelector with
      | .error e => .error e
      | .ok labels => .ok (mkMetricQuery metricName labels)

/-- Nanoseconds per second, minute, hour: the Go duration constants. -/
def secondNanos : Int := 1000000000

/-- Nanoseconds in time.Minute. -/
def minuteNanos : Int := 60 * secondNanos

/-- Nanoseconds in time.Hour. -/
def hourNanos : Int := 60 * minuteNanos

/-- The generic time.ParseDuration fallback of parseDuration.  It is only
reached for strings whose last character is none of s, m, h, d; every
duration string the Go standard library accepts ends in s, m or h (the
units are ns, us, ms, s, m, h), so on this branch time.ParseDuration always
fails.  Modelled as that failure. -/
def goParseDurationFallback (duration : String) : Except String Int :=
  .error ("time: invalid duration " ++ duration)

/-- parseDuration: a bare integer with one of the suffixes s, m, h, d, in
that test order, falling back to the generic Go duration syntax.  The
result is in nanoseconds. -/
def parseDuration (duration0 : String) : Except String Int :=
  let duration := goTrimSpace duration0
  if duration = "" then .error "empty duration"
  else if goHasSuffix duration "s" then
    match goAtoi (goSlice duration 0 (duration.length - 1)) with
    | .error e => .error e
    | .ok v => .ok (v * secondNanos)
  else if goHasSuffix duration "m" then
    match goAtoi (goSlice duration 0 (duration.length - 1)) with
    | .error e => .error e
    | .ok v => .ok (v * minuteNanos)
  else if goHasSuffix duration "h" then
    match goAtoi (goSlice duration 0 (duration.length - 1)) with
    | .error e => .error e
    | .ok v => .ok (v * hourNanos)
  else if goHasSuffix duration "d" then
    match goAtoi (goSlice duration 0 (duration.length - 1)) with
    | .error e => .error e
    | .ok v => .ok (v * 24 * hourNanos)
  else
    goParseDurationFallback duration

/-- parseMetricWithRange: a metric selector with an optional
bracket-delimited range duration. -/
def parseMetricWithRange (query : String) : Except String (Query × Int) :=
  match goIndex query "[" with
  | none =>
    match parseMetricWithLabels query with
    | .error e => .error e
    | .ok q => .ok (q, 0)
  | some rangeStart =>
    match goIndex query "]" with
    | none => .error "missing closing bracket in range selector"
    | some rangeEnd =>
      let metricPart := goTrimSpace (goSlice query 0 rangeStart)
      let rangePart := goTrimSpace (goSlice query (rangeStart + 1) rangeEnd)
      match parseMetricWithLabels metricPart with
      | .error e => .error e
      | .ok metricQuery =>
        match parseDuration rangePart with
        | .error e => .error ("invalid range duration: " ++ e)
        | .ok duration => .ok (metricQuery, duration)

/-- parseFunction: a function name applied to one argument that must be a
metric selector with an optional range. -/
def parseFunction (query : String) : Except String Query :=
  match goIndex query "(" with
  | none => .error "invalid function syntax"
  | some openParen =>
    let funcName := goTrimSpace (goSlice query 0 openParen)
    match goLastIndex query ")" with
    | none => .error "missing closing parenthesis"
    | some closeParen =>
      if closeParen ≤ openParen then .error "missing closing parenthesis"
      else
        let arg := goTrimSpace (goSlice query (openParen + 1) closeParen)
        match parseMetricWithRange arg with
        | .error e => .error ("invalid function argument: " ++ e)
        | .ok (metricQuery, rangeDuration) =>
          .ok ⟨metricQuery.metricName, metricQuery.labels, funcName,
               rangeDuration, 0, none⟩

/-- Parse: trim, reject the empty query, route queries containing both
parentheses to parseFunction, bare identifiers to a labelless query, and
the rest to parseMetricWithLabels. -/
def Parse (query0 : String) : Except String Query :=
  let query := goTrimSpace query0
  if query = "" then .error "empty query"
  else if goContains query "(" && goContains query ")" then
    parseFunction query
  else if !(goContains query "\x7b") then
    .ok (mkMetricQuery query [])
  else
    parseMetricWithLabels query

/-- ParseAggregation: an aggregation name applied to an inner query, with
an optional trailing by clause of grouping labels. -/
def ParseAggregation (query0 : String) : Except String Query :=
  let query := goTrimSpace query0
  match goIndex query "(" with
  | none => .error "invalid aggregation syntax"
  | some openParen =>
    let funcName := goTrimSpace (goSlice query 0 openParen)
    match goLastIndex query ")" with
    | none => .error "missing closing parenthesis"
    | some closeParen =>
      let metricQuery := goTrimSpace (goSlice query (openParen + 1) closeParen)
      match Parse metricQuery with
      | .error e => .error e
      | .ok parsedQuery =>
        let byClause :=
          if closeParen + 1 < query.length then
            let remaining := goTrimSpace (goSliceFrom query (closeParen + 1))
            if goStartsWith remaining "by" then
              match goIndex remaining "(", goIndex remaining ")" with
              | some byStart, some byEnd =>
                goTrimSpace (goSlice remaining (byStart + 1) byEnd)
              | _, _ => ""
            else ""
          else ""
        let byLabels :=
          if byClause ≠ "" then
            (goSplitChar byClause ',').map goTrimSpace
          else []
        .ok { parsedQuery with aggregation := some ⟨funcName, byLabels, []⟩ }

/-! ## Storage engine (backend/internal/storage/sqlite.go)

The metrics table is modelled as the list of its rows in insertion order.
The labels column holds a JSON object; it is modelled structurally as the
label list it serialises, and the JSON_EXTRACT label filter of the
evaluator becomes a lookup in that list. -/

/-- One row of the metrics table.  The timestamp column holds whatever
integer InsertMetric wrote into it. -/
structure StoredMetric where
  timestamp : Int
  metricName : String
  value : ℚ
  labels : Labels
  serviceName : String
deriving DecidableEq, Repr

/-- The storage.Metric record passed to InsertMetric; the Go time.Time
timestamp is its exact nanosecond instant. -/
structure GoMetric where
  timestamp : Int
  metricName : String
  value : ℚ
  labels : Labels
  serviceName : String
deriving DecidableEq, Repr

/-- Two to the sixty-third power. -/
def twoPow63 : Int := 9223372036854775808

/-- Reduction of an integer into the int64 range, as Go conversions and the
overflow of UnixNano perform. -/
def int64Wrap (n : Int) : Int := ((n + twoPow63) % (2 * twoPow63)) - twoPow63

/-- Go time zero value (January 1 of year 1, UTC) as exact nanoseconds
since the Unix epoch: -62135596800 seconds. -/
def goZeroTimeNanos : Int := -62135596800000000000

/-- time.Time.Unix(): whole seconds since the epoch.  Truncating division
agrees with the Go floor behaviour on the non-negative instants exercised
here. -/
def goUnix (nanos : Int) : Int := nanos / secondNanos

/-- SQLiteStorage.InsertMetric: append one row whose timestamp column is
metric.Timestamp.UnixNano(). -/
def InsertMetric (db : List StoredMetric) (metric : GoMetric) : List StoredMetric :=
  db ++ [⟨int64Wrap metric.timestamp, metric.metricName, metric.value,
          metric.labels, metric.serviceName⟩]

/-! ## Query evaluator (unnamed part_002, package promql) -/

/-- The WHERE clause of the getMetricSeries SQL: metric name equality, the
row timestamp between startTime.Unix() and endTime.Unix() inclusive, and
one JSON_EXTRACT equality per query label. -/
def rowMatches (q : Query) (startNano endNano : Int) (r : StoredMetric) : Bool :=
  r.metricName = q.metricName &&
  goUnix startNano ≤ r.timestamp &&
  r.timestamp ≤ goUnix endNano &&
  q.labels.all (fun kv => mapGet r.labels kv.1 = some kv.2)

/-- The rows getMetricSeries receives: the filtered table ordered by the
timestamp column ascending.  A stable sort is used; SQLite leaves the order
of equal timestamps unspecified and no claim depends on it. -/
def fetchRows (db : List StoredMetric) (q : Query) (startNano endNano : Int) :
    List StoredMetric :=
  (db.filter (rowMatches q startNano endNano)).insertionSort
    (fun a b => a.timestamp ≤ b.timestamp)

/-- The label map getMetricSeries builds for each scanned row: the stored
labels JSON is not parsed (the source marks this simplification); the map
holds only the service key. -/
def rowLabels (r : StoredMetric) : Labels := [("service", r.serviceName)]

/-- The MetricPoint getMetricSeries appends for a row: time.Unix(ts, 0)
reads the stored integer as seconds, so the nanosecond instant of the
point is the stored integer times one billion. -/
def rowPoint (r : StoredMetric) : MetricPoint :=
  ⟨r.timestamp * secondNanos, r.value, rowLabels r⟩

/-- createSeriesKey: render each label as key=value, sort (sort.Strings on
the arbitrary-order map traversal; the sorted result is traversal-order
independent), and format with fmt.Sprintf verb v, which brackets the
space-joined slice. -/
def createSeriesKey (labels : Labels) : String :=
  let keys := labels.map (fun kv => kv.1 ++ "=" ++ kv.2)
  "[" ++ joinSpace (keys.insertionSort (fun a b => strLe a b)) ++ "]"

/-- One step of the getMetricSeries grouping loop: append the row point to
the series with the same key, or open a new series for it.  The Go code
accumulates series in a map keyed by createSeriesKey and appends points in
row order; the map is modelled as the list of series in first-appearance
order (the final Go map traversal order is arbitrary and no claim depends
on the order of distinct series). -/
def addRow (metricName : String) (acc : List MetricSeries) (r : StoredMetric) :
    List MetricSeries :=
  let key := createSeriesKey (rowLabels r)
  if acc.any (fun s => createSeriesKey s.labels = key) then
    acc.map (fun s =>
      if createSeriesKey s.labels = key then
        ⟨s.metricName, s.labels, s.points ++ [rowPoint r]⟩
      else s)
  else
    acc ++ [⟨metricName, rowLabels r, [rowPoint r]⟩]

/-- The grouping pass of getMetricSeries over the fetched rows. -/
def groupRows (metricName : String) (rows : List StoredMetric) : List MetricSeries :=
  rows.foldl (addRow metricName) []

/-- getMetricSeries: fetch the matching rows and group them into series. -/
def getMetricSeries (db : List StoredMetric) (q : Query) (startNano endNano : Int) :
    List MetricSeries :=
  groupRows q.metricName (fetchRows db q startNano endNano)

/-- The backward scan of applyRate: over the points before index j in
descending index order, the first whose timestamp is strictly after the
window start (Time.After is strict). -/
def findPrevPoint (prevRev : List MetricPoint) (rangeStart : Int) : Option MetricPoint :=
  prevRev.find? (fun q => rangeStart < q.timestamp)

/-- The per-point rate: value difference divided by the elapsed time in
seconds (Duration.Seconds is the nanosecond difference over one billion).
With duplicate timestamps Go divides by zero giving an infinity or NaN;
the rational model yields 0 there, and no claim evaluates that case. -/
def ratePointValue (p q : MetricPoint) : ℚ :=
  (p.value - q.value) / (((p.timestamp - q.timestamp : Int) : ℚ) / (1000000000 : ℚ))

/-- The applyRate loop over one series: prevRev carries the already-visited
points in descending index order, so the head position distinguishes the
skipped first point (j = 0) and the scan starts at index j - 1. -/
def ratePointsAux (range : Int) (prevRev : List MetricPoint) :
    List MetricPoint → List MetricPoint
  | [] => []
  | p :: rest =>
    let emitted :=
      if prevRev = [] then []
      else
        match findPrevPoint prevRev (p.timestamp - range) with
        | none => []
        | some q => [⟨p.timestamp, ratePointValue p q, p.labels⟩]
    emitted ++ ratePointsAux range (p :: prevRev) rest

/-- The rate output points for one series. -/
def ratePoints (range : Int) (pts : List MetricPoint) : List MetricPoint :=
  ratePointsAux range [] pts

/-- applyRate: per series, keep name and labels and replace the points. -/
def applyRate (range : Int) (series : List MetricSeries) : List MetricSeries :=
  series.map (fun s => ⟨s.metricName, s.labels, ratePoints range s.points⟩)

/-- The backward scan of applyIncrease: over the points at indices j down
to 0 in descending order, the first whose timestamp is at or before the
window start (Before or Equal). -/
def findStartPoint (scanRev : List MetricPoint) (rangeStart : Int) : Option MetricPoint :=
  scanRev.find? (fun q => q.timestamp ≤ rangeStart)

/-- The applyIncrease loop over one series: the scan list includes the
current point (the Go loop starts at k = j) and no index is skipped. -/
def increasePointsAux (range : Int) (prevRev : List MetricPoint) :
    List MetricPoint → List MetricPoint
  | [] => []
  | p :: rest =>
    let emitted :=
      match findStartPoint (p :: prevRev) (p.timestamp - range) with
      | none => []
      | some q => [⟨p.timestamp, p.value - q.value, p.labels⟩]
    emitted ++ increasePointsAux range (p :: prevRev) rest

/-- The increase output points for one series. -/
def increasePoints (range : Int) (pts : List MetricPoint) : List MetricPoint :=
  increasePointsAux range [] pts

/-- applyIncrease: per series, keep name and labels and replace the points. -/
def applyIncrease (range : Int) (series : List MetricSeries) : List MetricSeries :=
  series.map (fun s => ⟨s.metricName, s.labels, increasePoints range s.points⟩)

/-- The ordered timestamp axis of applySum and applyAvg: the distinct
timestamps of all points of all series (a Go set map), sorted ascending.
The arbitrary map traversal order is immaterial after sorting. -/
def allTimestamps (series : List MetricSeries) : List Int :=
  ((series.map (fun s => s.points.map (fun p => p.timestamp))).flatten).dedup.insertionSort
    (fun a b => a ≤ b)

/-- The contribution of one series at one timestamp in applySum and
applyAvg: the value of its first point at exactly that timestamp (the
inner loop breaks at the first match), or zero when it has none. -/
def seriesContribution (ts : Int) (s : MetricSeries) : ℚ :=
  match s.points.find? (fun p => p.timestamp = ts) with
  | some p => p.value
  | none => 0

/-- Whether a series has a point at exactly the timestamp. -/
def seriesHasTs (ts : Int) (s : MetricSeries) : Bool :=
  s.points.any (fun p => p.timestamp = ts)

/-- applySum: on the empty input return it unchanged; otherwise one series
with the first input series name, an empty label set, and one point per
distinct timestamp summing the per-series contributions. -/
def applySum (series : List MetricSeries) : List MetricSeries :=
  match series with
  | [] => []
  | s0 :: _ =>
    let points := (allTimestamps series).map (fun ts =>
      (⟨ts, (series.map (seriesContribution ts)).sum, []⟩ : MetricPoint))
    [⟨s0.metricName, [], points⟩]

/-- applyAvg: like applySum but dividing by the number of series that have
a point at the timestamp, with an explicit zero for a zero count. -/
def applyAvg (series : List MetricSeries) : List MetricSeries :=
  match series with
  | [] => []
  | s0 :: _ =>
    let points := (allTimestamps series).map (fun ts =>
      let sum := (series.map (seriesContribution ts)).sum
      let count := series.countP (fun s => seriesHasTs ts s)
      let avg : ℚ := if 0 < count then sum / count else 0
      (⟨ts, avg, []⟩ : MetricPoint))
    [⟨s0.metricName, [], points⟩]

/-- applyCount: one series named count with a single point at the wall
clock now carrying the number of input series.  A Go nil labels map on the
point is the empty map. -/
def applyCount (now : Int) (series : List MetricSeries) : List MetricSeries :=
  [⟨"count", [], [⟨now, (series.length : ℚ), []⟩]⟩]

/-- All point values of all series in traversal order. -/
def allValues (series : List MetricSeries) : List ℚ :=
  (series.map (fun s => s.points.map (fun p => p.value))).flatten

/-- The applyMin fold.  Go starts from positive infinity; on a non-empty
value list the fold below is equal, and when no point exists at all Go
emits positive infinity, which has no rational counterpart and is modelled
as 0.  No claim evaluates either empty case. -/
def minValue (series : List MetricSeries) : ℚ :=
  match allValues series with
  | [] => 0
  | v :: vs => vs.foldl min v

/-- The applyMax fold; the mirror of minValue (Go starts from negative
infinity). -/
def maxValue (series : List MetricSeries) : ℚ :=
  match allValues series with
  | [] => 0
  | v :: vs => vs.foldl max v

/-- applyMin: on the empty input return it unchanged; otherwise one series
with the first input series name, empty labels, and a single point at now
carrying the minimum value. -/
def applyMin (now : Int) (series : List MetricSeries) : List MetricSeries :=
  match series with
  | [] => []
  | s0 :: _ => [⟨s0.metricName, [], [⟨now, minValue series, []⟩]⟩]

/-- applyMax: as applyMin with the maximum. -/
def applyMax (now : Int) (series : List MetricSeries) : List MetricSeries :=
  match series with
  | [] => []
  | s0 :: _ => [⟨s0.metricName, [], [⟨now, maxValue series, []⟩]⟩]

/-- applyFunction: the function-name switch of the evaluator; an
unrecognised name is an error. -/
def applyFunction (now : Int) (series : List MetricSeries) (function : String)
    (rangeDuration : Int) : Except String (List MetricSeries) :=
  if function = "rate" then .ok (applyRate rangeDuration series)
  else if function = "increase" then .ok (applyIncrease rangeDuration series)
  else if function = "sum" then .ok (applySum series)
  else if function = "avg" then .ok (applyAvg series)
  else if function = "count" then .ok (applyCount now series)
  else if function = "min" then .ok (applyMin now series)
  else if function = "max" then .ok (applyMax now series)
  else .error ("unsupported function: " ++ function)

/-- applyAggregation: the aggregation-operation switch; an unrecognised
operation is an error. -/
def applyAggregation (now : Int) (series : List MetricSeries) (agg : Aggregation) :
    Except String (List MetricSeries) :=
  if agg.operation = "sum" then .ok (applySum series)
  else if agg.operation = "avg" then .ok (applyAvg series)
  else if agg.operation = "count" then .ok (applyCount now series)
  else if agg.operation = "min" then .ok (applyMin now series)
  else if agg.operation = "max" then .ok (applyMax now series)
  else .error ("unsupported aggregation: " ++ agg.operation)

/-- Evaluate: fetch and group the base series, apply the optional function
and the optional aggregation, and assemble a vector-typed result.  The
database is passed as its row list, and now stands for the wall clock read
by the count, min and max transforms.  The storage fetch itself cannot
fail in this model, so the wrapped fetch-error branch of the source does
not appear. -/
def Evaluate (db : List StoredMetric) (q : Query) (startNano endNano now : Int) :
    Except String QueryResult :=
  match (if q.function = "" then .ok (getMetricSeries db q startNano endNano)
         else applyFunction now (getMetricSeries db q startNano endNano)
                q.function q.range) with
  | .error e => .error ("failed to apply function " ++ q.function ++ ": " ++ e)
  | .ok series1 =>
    match q.aggregation with
    | none => .ok ⟨series1, "vector"⟩
    | some agg =>
      match applyAggregation now series1 agg with
      | .error e => .error ("failed to apply aggregation: " ++ e)
      | .ok series2 => .ok ⟨series2, "vector"⟩

/-! ## Protocol normalization layer
(backend/internal/ingestion/service.go and the gRPC trace service of
unnamed part_005) -/

/-- An OTLP AnyValue as far as the service-name extraction observes it: a
string value, or any non-string value, whose GetStringValue is the empty
string. -/
inductive AnyValue where
  | str (s : String)
  | nonString
deriving DecidableEq, Repr

/-- The protobuf GetStringValue accessor. -/
def getStringValue : AnyValue → String
  | .str s => s
  | .nonString => ""

/-- extractServiceNameFromResource of the HTTP ingestion service: the JSON
adapter decodes each resource attribute to its key and stringValue only;
the loop returns the stringValue of the first attribute keyed service.name
whatever that value is, and unknown when no attribute has that key. -/
def extractServiceNameFromResource : List (String × String) → String
  | [] => "unknown"
  | (k, v) :: rest =>
    if k = "service.name" then v else extractServiceNameFromResource rest

/-- The attribute loop of the gRPC extractServiceName: the first attribute
keyed service.name whose string value is non-empty supplies the name;
an attribute with that key but an empty or non-string value is skipped. -/
def extractServiceNameLoop : List (String × AnyValue) → String
  | [] => "unknown"
  | (k, v) :: rest =>
    if k = "service.name" && getStringValue v ≠ "" then getStringValue v
    else extractServiceNameLoop rest

/-- extractServiceName of the gRPC services (the metrics, trace and logs
services carry identical copies): a nil resource is unknown. -/
def extractServiceName : Option (List (String × AnyValue)) → String
  | none => "unknown"
  | some attrs => extractServiceNameLoop attrs

/-- The canonical storage.Trace record as both trace adapters populate it;
the startTime instant is kept exact (nanoseconds), and the attributes JSON
string, identifier columns and insertion metadata are outside the scope of
the timestamp claims. -/
structure TraceRecord where
  traceId : String
  spanId : String
  parentSpanId : Option String
  serviceName : String
  operationName : String
  startNanos : Int
  durationNanos : Int
  statusCode : String
deriving DecidableEq, Repr

/-- A span of the OTLP gRPC wire form, restricted to the fields processSpan
reads.  The two uint64 nanosecond fields are naturals below 2^64. -/
structure PbSpan where
  traceId : String
  spanId : String
  parentSpanId : String
  name : String
  startTimeUnixNano : Nat
  endTimeUnixNano : Nat
  statusCode : Option Nat
deriving DecidableEq, Repr

/-- convertStatusCode of the gRPC trace service: a nil status is UNSET and
an unrecognised enum value is UNKNOWN.  The wire enum values are 0, 1, 2. -/
def convertStatusCode : Option Nat → String
  | none => "UNSET"
  | some 0 => "UNSET"
  | some 1 => "OK"
  | some 2 => "ERROR"
  | some _ => "UNKNOWN"

/-- Two to the sixty-fourth power. -/
def twoPow64 : Int := 2 * twoPow63

/-- The Go conversion int64(n) of a uint64 value. -/
def int64OfUInt64 (n : Nat) : Int :=
  if (n : Int) < twoPow63 then (n : Int) else (n : Int) - twoPow64

/-- Go uint64 subtraction (wrapping). -/
def uint64Sub (a b : Nat) : Int := ((a : Int) - (b : Int)) % twoPow64

/-- processSpan of the gRPC trace service: the start time is
time.Unix(0, int64(startTimeUnixNano)) and the duration is the wrapping
uint64 difference of the wire end and start converted to int64. -/
def processSpan (span : PbSpan) (serviceName : String) : TraceRecord :=
  { traceId := span.traceId
    spanId := span.spanId
    parentSpanId := if span.parentSpanId ≠ "" then some span.parentSpanId else none
    serviceName := serviceName
    operationName := span.name
    startNanos := int64OfUInt64 span.startTimeUnixNano
    durationNanos := int64OfUInt64 ((uint64Sub span.endTimeUnixNano span.startTimeUnixNano).toNat)
    statusCode := convertStatusCode span.statusCode }

/-- A span of the OTLP JSON/HTTP wire form, restricted to the fields the
HandleTraces loop reads.  The two timestamp fields arrive as strings (the
OTLP JSON encoding writes the uint64 nanosecond counts in decimal). -/
structure JsonSpan where
  traceId : String
  spanId : String
  parentSpanId : String
  name : String
  startTimeUnixNano : String
  endTimeUnixNano : String
  statusCode : String
deriving DecidableEq, Repr

/-- Whether a character list has the RFC3339 date-time shape
digit digit digit digit, dash, digit digit, dash, digit digit, then T. -/
def rfc3339DateShape (cs : List Char) : Bool :=
  match cs with
  | y1 :: y2 :: y3 :: y4 :: '-' :: m1 :: m2 :: '-' :: d1 :: d2 :: 'T' :: _ =>
    [y1, y2, y3, y4, m1, m2, d1, d2].all goIsDigit
  | _ => false

/-- The value of a shape-passing RFC3339 parse; never reached by any claim
input, so it is left unspecified as a fixed constant function. -/
def rfc3339Payload (_ : String) : Int := 0

/-- Modelled from the Go standard library: time.Parse with the RFC3339Nano
layout, which the HTTP trace handler applies to its timestamp strings.
Only the behaviour the adapter can observe on its wire inputs is modelled:
a string that fails the RFC3339 date shape (in particular any decimal
nanosecond count, whose fifth byte is a digit rather than the dash the
layout requires there) fails to parse, and Go then returns the zero
time.Time because the handler discards the error.  The full calendar
evaluation of a well-formed RFC3339 string is not needed by any claim and
is out of the model: a shape-passing string maps to an unspecified but
fixed function of its text. -/
def parseRFC3339Nano (s : String) : Option Int :=
  if rfc3339DateShape s.data then some (rfc3339Payload s) else none

/-- The per-span body of the HandleTraces loop of the HTTP ingestion
service: both timestamps are parsed with the RFC3339Nano layout and the
parse errors are discarded, so a failing parse leaves the Go zero time;
the duration is endTime.Sub(startTime) in nanoseconds (saturation of that
difference is unreachable here); the status code string is stored
verbatim. -/
def handleTracesSpan (resourceAttrs : List (String × String)) (span : JsonSpan) :
    TraceRecord :=
  let startNanos := (parseRFC3339Nano span.startTimeUnixNano).getD goZeroTimeNanos
  let endNanos := (parseRFC3339Nano span.endTimeUnixNano).getD goZeroTimeNanos
  { traceId := span.traceId
    spanId := span.spanId
    parentSpanId := if span.parentSpanId ≠ "" then some span.parentSpanId else none
    serviceName := extractServiceNameFromResource resourceAttrs
    operationName := span.name
    startNanos := startNanos
    durationNanos := endNanos - startNanos
    statusCode := span.statusCode }

/-! ## Specification-side definitions

The following definitions restate evaluator behaviour in the vocabulary of
the specification (windows over the ordered prefix of a series, nearest
qualifying points as the last element of a filtered prefix, per-timestamp
contributions of exactly the series that have a point).  The claim theorems
compare them with the definitions translated from the source above. -/

/-- Specification reading of the rate window at one point: among the
points at earlier indices (given in series order), those whose timestamp is
strictly after the window start; the nearest one is the last such. -/
def nearestInWindow (prev : List MetricPoint) (rangeStart : Int) : Option MetricPoint :=
  (prev.filter (fun q => rangeStart < q.timestamp)).getLast?

/-- Specification reading of the rate transform, with prev the ordered
prefix of already seen points: no output at index 0; otherwise an output
point exactly when some earlier point lies strictly inside the window,
valued against the nearest such point. -/
def ratePointsSpecAux (range : Int) (prev : List MetricPoint) :
    List MetricPoint → List MetricPoint
  | [] => []
  | p :: rest =>
    let emitted :=
      if prev = [] then []
      else
        match nearestInWindow prev (p.timestamp - range) with
        | none => []
        | some q => [⟨p.timestamp, ratePointValue p q, p.labels⟩]
    emitted ++ ratePointsSpecAux range (prev ++ [p]) rest

/-- Specification reading of the rate output points of one series. -/
def ratePointsSpec (range : Int) (pts : List MetricPoint) : List MetricPoint :=
  ratePointsSpecAux range [] pts

/-- Specification reading of the increase window start at one point: among
the points at indices up to and including the current one, those whose
timestamp is at or before the window start; the nearest one is the last
such. -/
def nearestAtOrBefore (scan : List MetricPoint) (rangeStart : Int) : Option MetricPoint :=
  (scan.filter (fun q => q.timestamp ≤ rangeStart)).getLast?

/-- Specification reading of the increase transform: at every index, an
output point exactly when some point at an index up to the current one
lies at or before the window start, subtracting the nearest such point. -/
def increasePointsSpecAux (range : Int) (prev : List MetricPoint) :
    List MetricPoint → List MetricPoint
  | [] => []
  | p :: rest =>
    let emitted :=
      match nearestAtOrBefore (prev ++ [p]) (p.timestamp - range) with
      | none => []
      | some q => [⟨p.timestamp, p.value - q.value, p.labels⟩]
    emitted ++ increasePointsSpecAux range (prev ++ [p]) rest

/-- Specification reading of the increase output points of one series. -/
def increasePointsSpec (range : Int) (pts : List MetricPoint) : List MetricPoint :=
  increasePointsSpecAux range [] pts

/-- Specification reading of the sum aggregation value at one timestamp:
the values of exactly those series that have a point at exactly that
timestamp (the first such point of each series), summed; series without a
point there contribute nothing. -/
def sumSpecValue (series : List MetricSeries) (ts : Int) : ℚ :=
  ((series.filterMap (fun s => s.points.find? (fun p => p.timestamp = ts))).map
    (fun p => p.value)).sum

/-- Specification reading of the service name the JSON/HTTP adapter
assigns: the string value of the first resource attribute keyed
service.name, whatever that value is, and unknown when the key is absent. -/
def httpServiceNameSpec (attrs : List (String × String)) : String :=
  ((attrs.find? (fun kv => kv.1 = "service.name")).map (fun kv => kv.2)).getD "unknown"

/-- Specification reading of the service name the gRPC adapters assign:
the first non-empty string value among attributes keyed service.name, and
unknown when there is none. -/
def grpcServiceNameSpec (attrs : List (String × AnyValue)) : String :=
  ((attrs.filterMap (fun kv =>
      if kv.1 = "service.name" && getStringValue kv.2 ≠ "" then
        some (getStringValue kv.2)
      else none)).head?).getD "unknown"

/-- Invariant of the getMetricSeries grouping accumulator: every series
carries the single-service label shape rowLabels produces, every point of
a series carries the labels of its series, and no two series share a
createSeriesKey. -/
def GroupInv (acc : List MetricSeries) : Prop :=
  (∀ s ∈ acc, ∃ sn, s.labels = [("service", sn)]) ∧
  (∀ s ∈ acc, ∀ p ∈ s.points, p.labels = s.labels) ∧
  (acc.map (fun s => createSeriesKey s.labels)).Nodup

/-! ## Helper lemmas -/

/-- A backward scan from the end of a list finds the last element of its
filtered form: find? over the reversal is the getLast? of the filter. -/
theorem find?_reverse_eq_getLast?_filter {α : Type} (l : List α) (p : α → Bool) :
    l.reverse.find? p = (l.filter p).getLast? := by
  rw [← List.filter_head? p l.reverse, List.filter_reverse, List.head?_reverse]

/-- The applyRate backward scan over the reversed prefix computes the
nearest in-window point of the specification. -/
theorem findPrevPoint_reverse (prev : List MetricPoint) (rangeStart : Int) :
    findPrevPoint prev.reverse rangeStart = nearestInWindow prev rangeStart := by
  unfold findPrevPoint nearestInWindow
  exact find?_reverse_eq_getLast?_filter prev _

/-- The applyIncrease backward scan, which starts at the current point,
computes the nearest at-or-before point of the specification. -/
theorem findStartPoint_reverse (prev : List MetricPoint) (p : MetricPoint)
    (rangeStart : Int) :
    findStartPoint (p :: prev.reverse) rangeStart =
      nearestAtOrBefore (prev ++ [p]) rangeStart := by
  unfold findStartPoint nearestAtOrBefore
  rw [← find?_reverse_eq_getLast?_filter]
  simp

/-- The rate loop agrees with its specification reading for every ordered
prefix of already-seen points. -/
theorem ratePointsAux_eq_spec (range : Int) (rest prev : List MetricPoint) :
    ratePointsAux range prev.reverse rest = ratePointsSpecAux range prev rest := by
  induction rest generalizing prev with
  | nil => rfl
  | cons p rest ih =>
    show ratePointsAux range prev.reverse (p :: rest) =
      ratePointsSpecAux range prev (p :: rest)
    unfold ratePointsAux ratePointsSpecAux
    have hrec : ratePointsAux range (p :: prev.reverse) rest =
        ratePointsSpecAux range (prev ++ [p]) rest := by
      have := ih (prev ++ [p])
      simpa using this
    rw [findPrevPoint_reverse]
    simp only [List.reverse_eq_nil_iff]
    rw [hrec]

/-- ratePoints agrees with its specification reading. -/
theorem ratePoints_eq_spec (range : Int) (pts : List MetricPoint) :
    ratePoints range pts = ratePointsSpec range pts :=
  ratePointsAux_eq_spec range pts []

/-- The increase loop agrees with its specification reading for every
ordered prefix of already-seen points. -/
theorem increasePointsAux_eq_spec (range : Int) (rest prev : List MetricPoint) :
    increasePointsAux range prev.reverse rest = increasePointsSpecAux range prev rest := by
  induction rest generalizing prev with
  | nil => rfl
  | cons p rest ih =>
    show increasePointsAux range prev.reverse (p :: rest) =
      increasePointsSpecAux range prev (p :: rest)
    unfold increasePointsAux increasePointsSpecAux
    have hrec : increasePointsAux range (p :: prev.reverse) rest =
        increasePointsSpecAux range (prev ++ [p]) rest := by
      have := ih (prev ++ [p])
      simpa using this
    rw [findStartPoint_reverse, hrec]

/-- increasePoints agrees with its specification reading. -/
theorem increasePoints_eq_spec (range : Int) (pts : List MetricPoint) :
    increasePoints range pts = increasePointsSpec range pts :=
  increasePointsAux_eq_spec range pts []

/-- createSeriesKey on a single service label in explicit appended form. -/
theorem createSeriesKey_service (a : String) :
    createSeriesKey [("service", a)] = "[" ++ ("service=" ++ a) ++ "]" := by
  simp [createSeriesKey, List.insertionSort, List.orderedInsert, joinSpace]

/-- createSeriesKey distinguishes distinct single-service label sets. -/
theorem createSeriesKey_service_inj (a b : String)
    (h : createSeriesKey [("service", a)] = createSeriesKey [("service", b)]) :
    a = b := by
  rw [createSeriesKey_service, createSeriesKey_service] at h
  have hd := congrArg String.data h
  simp only [String.data_append, List.cons_append, List.nil_append,
    List.append_assoc] at hd
  simp only [List.cons.injEq, true_and] at hd
  have h3 := List.append_cancel_right hd
  cases a; cases b; simp_all

/-- Points already grouped survive one more grouping step, in a series
with the same labels. -/
theorem addRow_preserves_points (name : String) (acc : List MetricSeries)
    (r : StoredMetric) (s : MetricSeries) (hs : s ∈ acc) (p : MetricPoint)
    (hp : p ∈ s.points) :
    ∃ s2 ∈ addRow name acc r, s2.labels = s.labels ∧ p ∈ s2.points := by
  unfold addRow
  by_cases hany : acc.any (fun t => createSeriesKey t.labels = createSeriesKey (rowLabels r))
  · simp only [hany, if_pos]
    by_cases hk : createSeriesKey s.labels = createSeriesKey (rowLabels r)
    · refine ⟨⟨s.metricName, s.labels, s.points ++ [rowPoint r]⟩, ?_, rfl, ?_⟩
      · refine List.mem_map.mpr ⟨s, hs, ?_⟩
        simp [hk]
      · exact List.mem_append_left _ hp
    · refine ⟨s, ?_, rfl, hp⟩
      refine List.mem_map.mpr ⟨s, hs, ?_⟩
      simp [hk]
  · simp only [hany, if_neg, Bool.false_eq_true, not_false_eq_true]
    exact ⟨s, List.mem_append_left _ hs, rfl, hp⟩

/-- One grouping step places the point of the processed row in a series
labelled with its row labels. -/
theorem addRow_places (name : String) (acc : List MetricSeries) (r : StoredMetric)
    (hinv : GroupInv acc) :
    ∃ s2 ∈ addRow name acc r, s2.labels = rowLabels r ∧ rowPoint r ∈ s2.points := by
  unfold addRow
  by_cases hany : acc.any (fun t => createSeriesKey t.labels = createSeriesKey (rowLabels r))
  · simp only [hany, if_pos]
    obtain ⟨s0, hs0, hkey⟩ := List.any_eq_true.mp hany
    have hkey2 : createSeriesKey s0.labels = createSeriesKey (rowLabels r) := by
      simpa using hkey
    obtain ⟨sn, hsn⟩ := hinv.1 s0 hs0
    have hlab : s0.labels = rowLabels r := by
      rw [hsn] at hkey2 ⊢
      unfold rowLabels at hkey2 ⊢
      rw [createSeriesKey_service_inj sn r.serviceName hkey2]
    refine ⟨⟨s0.metricName, s0.labels, s0.points ++ [rowPoint r]⟩, ?_, hlab, ?_⟩
    · refine List.mem_map.mpr ⟨s0, hs0, ?_⟩
      simp [hkey2]
    · exact List.mem_append_right _ (by simp)
  · simp only [hany, if_neg, Bool.false_eq_true, not_false_eq_true]
    exact ⟨⟨name, rowLabels r, [rowPoint r]⟩, List.mem_append_right _ (by simp), rfl,
      by simp⟩

/-- One grouping step preserves the grouping invariant. -/
theorem addRow_inv (name : String) (acc : List MetricSeries) (r : StoredMetric)
    (hinv : GroupInv acc) : GroupInv (addRow name acc r) := by
  obtain ⟨h1, h2, h3⟩ := hinv
  unfold addRow
  by_cases hany : acc.any (fun t => createSeriesKey t.labels = createSeriesKey (rowLabels r))
  · simp only [hany, if_pos]
    refine ⟨?_, ?_, ?_⟩
    · intro s hs
      obtain ⟨s0, hs0, rfl⟩ := List.mem_map.mp hs
      by_cases hk : createSeriesKey s0.labels = createSeriesKey (rowLabels r) <;>
        simpa [hk] using h1 s0 hs0
    · intro s hs p hp
      obtain ⟨s0, hs0, rfl⟩ := List.mem_map.mp hs
      by_cases hk : createSeriesKey s0.labels = createSeriesKey (rowLabels r)
      · simp only [hk, if_pos] at hp ⊢
        rcases List.mem_append.mp hp with hp0 | hp1
        · exact h2 s0 hs0 p hp0
        · obtain ⟨sn, hsn⟩ := h1 s0 hs0
          have hlab : s0.labels = rowLabels r := by
            rw [hsn] at hk ⊢
            unfold rowLabels at hk ⊢
            rw [createSeriesKey_service_inj sn r.serviceName hk]
          have : p = rowPoint r := by simpa using hp1
          rw [this, hlab]
          rfl
      · simp only [hk, if_neg, not_false_eq_true] at hp ⊢
        exact h2 s0 hs0 p hp
    · have hmapeq :
          (acc.map (fun s =>
            if createSeriesKey s.labels = createSeriesKey (rowLabels r) then
              (⟨s.metricName, s.labels, s.points ++ [rowPoint r]⟩ : MetricSeries)
            else s)).map (fun s => createSeriesKey s.labels) =
          acc.map (fun s => createSeriesKey s.labels) := by
        rw [List.map_map]
        refine List.map_congr_left ?_
        intro s _
        by_cases hk : createSeriesKey s.labels = createSeriesKey (rowLabels r) <;>
          simp [hk]
      rw [hmapeq]
      exact h3
  · simp only [hany, if_neg, Bool.false_eq_true, not_false_eq_true]
    have hnot : ∀ s ∈ acc, createSeriesKey s.labels ≠ createSeriesKey (rowLabels r) := by
      intro s hs
      have hanyf : (acc.any fun t =>
          createSeriesKey t.labels = createSeriesKey (rowLabels r)) = false := by
        simpa using hany
      have := List.any_eq_false.mp hanyf s hs
      simpa using this
    refine ⟨?_, ?_, ?_⟩
    · intro s hs
      rcases List.mem_append.mp hs with hs0 | hs1
      · exact h1 s hs0
      · have : s = ⟨name, rowLabels r, [rowPoint r]⟩ := by simpa using hs1
        refine ⟨r.serviceName, ?_⟩
        rw [this]
        rfl
    · intro s hs p hp
      rcases List.mem_append.mp hs with hs0 | hs1
      · exact h2 s hs0 p hp
      · have hseq : s = ⟨name, rowLabels r, [rowPoint r]⟩ := by simpa using hs1
        rw [hseq] at hp
        have : p = rowPoint r := by simpa using hp
        rw [this, hseq]
        rfl
    · rw [List.map_append]
      refine List.Nodup.append h3 (by simp) ?_
      intro k hk1 hk2
      simp only [List.map_cons, List.map_nil, List.mem_singleton] at hk2
      obtain ⟨s, hs, rfl⟩ := List.mem_map.mp hk1
      exact hnot s hs hk2

/-- The whole grouping fold preserves the invariant. -/
theorem foldl_addRow_inv (name : String) (rows : List StoredMetric)
    (acc : List MetricSeries) (hinv : GroupInv acc) :
    GroupInv (rows.foldl (addRow name) acc) := by
  induction rows generalizing acc with
  | nil => exact hinv
  | cons r rest ih => exact ih (addRow name acc r) (addRow_inv name acc r hinv)

/-- Points grouped into the accumulator survive the whole fold. -/
theorem foldl_addRow_preserves (name : String) (rows : List StoredMetric)
    (acc : List MetricSeries) (s : MetricSeries) (hs : s ∈ acc) (p : MetricPoint)
    (hp : p ∈ s.points) :
    ∃ s2 ∈ rows.foldl (addRow name) acc, s2.labels = s.labels ∧ p ∈ s2.points := by
  induction rows generalizing acc s with
  | nil => exact ⟨s, hs, rfl, hp⟩
  | cons r rest ih =>
    obtain ⟨s2, hs2, hlab, hp2⟩ := addRow_preserves_points name acc r s hs p hp
    obtain ⟨s3, hs3, hlab3, hp3⟩ := ih (addRow name acc r) s2 hs2 hp2
    exact ⟨s3, hs3, hlab3.trans hlab, hp3⟩

/-- Every processed row ends up as a point of a series labelled with its
row labels. -/
theorem foldl_addRow_places (name : String) (rows : List StoredMetric)
    (acc : List MetricSeries) (hinv : GroupInv acc) (r : StoredMetric)
    (hr : r ∈ rows) :
    ∃ s2 ∈ rows.foldl (addRow name) acc, s2.labels = rowLabels r ∧
      rowPoint r ∈ s2.points := by
  induction rows generalizing acc with
  | nil => cases hr
  | cons r0 rest ih =>
    rcases List.mem_cons.mp hr with rfl | hr1
    · obtain ⟨s2, hs2, hlab, hp⟩ := addRow_places name acc r hinv
      obtain ⟨s3, hs3, hlab3, hp3⟩ :=
        foldl_addRow_preserves name rest (addRow name acc r) s2 hs2 (rowPoint r) hp
      exact ⟨s3, hs3, hlab3.trans hlab, hp3⟩
    · exact ih (addRow name acc r0) (addRow_inv name acc r0 hinv) hr1

/-- The grouped series of any row list satisfy the invariant. -/
theorem groupRows_inv (name : String) (rows : List StoredMetric) :
    GroupInv (groupRows name rows) :=
  foldl_addRow_inv name rows [] ⟨by simp, by simp, by simp⟩

/-- Two rows land in one common series of the grouping exactly when their
row labels agree. -/
theorem groupRows_same_series_iff (name : String) (rows : List StoredMetric)
    (r1 r2 : StoredMetric) (h1 : r1 ∈ rows) (h2 : r2 ∈ rows) :
    (∃ s ∈ groupRows name rows, rowPoint r1 ∈ s.points ∧ rowPoint r2 ∈ s.points) ↔
      rowLabels r1 = rowLabels r2 := by
  obtain ⟨inv1, inv2, inv3⟩ := groupRows_inv name rows
  constructor
  · rintro ⟨s, hs, hp1, hp2⟩
    have e1 : (rowPoint r1).labels = s.labels := inv2 s hs _ hp1
    have e2 : (rowPoint r2).labels = s.labels := inv2 s hs _ hp2
    have : (rowPoint r1).labels = (rowPoint r2).labels := e1.trans e2.symm
    simpa [rowPoint] using this
  · intro hlab
    obtain ⟨s1, hs1, hl1, hp1⟩ :=
      foldl_addRow_places name rows [] ⟨by simp, by simp, by simp⟩ r1 h1
    obtain ⟨s2, hs2, hl2, hp2⟩ :=
      foldl_addRow_places name rows [] ⟨by simp, by simp, by simp⟩ r2 h2
    have hkeys : createSeriesKey s1.labels = createSeriesKey s2.labels := by
      rw [hl1, hl2, hlab]
    have hss : s1 = s2 := List.inj_on_of_nodup_map inv3 hs1 hs2 hkeys
    exact ⟨s1, hs1, hp1, hss ▸ hp2⟩

/-- The applySum per-timestamp fold (each series contributes its first
matching point value, zero when none) equals the specification sum over
exactly the series that have a matching point. -/
theorem sum_contribution_eq (ts : Int) (series : List MetricSeries) :
    (series.map (seriesContribution ts)).sum = sumSpecValue series ts := by
  induction series with
  | nil => rfl
  | cons s rest ih =>
    simp only [List.map_cons, List.sum_cons, sumSpecValue, List.filterMap_cons]
    cases h : s.points.find? (fun p => p.timestamp = ts) with
    | none =>
      simp only [seriesContribution, h]
      rw [ih]
      simp [sumSpecValue]
    | some p =>
      simp only [seriesContribution, h, List.map_cons, List.sum_cons]
      rw [ih]
      simp [sumSpecValue]

/-! ## Claim theorems -/

/-- C1: the claim states that a record inserted through the storage engine
with timestamp t is returned by an evaluator fetch for its metric name
whenever startTime is at most t and t is at most endTime and the label
constraints are satisfied.  The code falsifies this: InsertMetric writes
Timestamp.UnixNano() into the timestamp column while getMetricSeries
compares that column against startTime.Unix() and endTime.Unix() in
seconds.  Below, a metric at Unix time 1700000000 (nanosecond instant
1700000000000000000) is inserted and fetched over the enclosing inclusive
two-minute window with no label constraints; the window contains the
record timestamp, yet the fetch yields no series at all, because the
stored nanosecond count exceeds endTime.Unix(). -/
theorem c1_insert_then_fetch_returns_nothing :
    (1699999940000000000 : Int) ≤ 1700000000000000000 ∧
    (1700000000000000000 : Int) ≤ 1700000060000000000 ∧
    getMetricSeries
      (InsertMetric []
        ⟨1700000000000000000, "http_requests_total", 42, [("env", "prod")], "api"⟩)
      (mkMetricQuery "http_requests_total" [])
      1699999940000000000 1700000060000000000 = [] :=
  ⟨by decide, by decide, by decide⟩

/-- C2: the claim states that the structured RPC adapter and the JSON/HTTP
adapter decode the same logical trace payload to identical canonical
records, with the start equal to the wire nanosecond count and the
duration equal to end minus start.  The code falsifies this: the HTTP
handler parses the decimal nanosecond strings with the RFC3339Nano text
layout, the parse fails, and the discarded error leaves the Go zero time.
For a span with wire start 1700000000000000000 and wire end
1700000001000000000, the gRPC adapter records that start and a duration of
one second, while the HTTP adapter records the zero time and a zero
duration. -/
theorem c2_adapters_disagree_on_wire_nanoseconds :
    parseRFC3339Nano "1700000000000000000" = none ∧
    (processSpan ⟨"t1", "s1", "", "op", 1700000000000000000,
        1700000001000000000, some 1⟩ "svc").startNanos = 1700000000000000000 ∧
    (processSpan ⟨"t1", "s1", "", "op", 1700000000000000000,
        1700000001000000000, some 1⟩ "svc").durationNanos = 1000000000 ∧
    (handleTracesSpan [("service.name", "svc")]
        ⟨"t1", "s1", "", "op", "1700000000000000000", "1700000001000000000",
         "STATUS_CODE_OK"⟩).startNanos = goZeroTimeNanos ∧
    (handleTracesSpan [("service.name", "svc")]
        ⟨"t1", "s1", "", "op", "1700000000000000000", "1700000001000000000",
         "STATUS_CODE_OK"⟩).durationNanos = 0 ∧
    goZeroTimeNanos ≠ 1700000000000000000 :=
  ⟨by decide, by decide, by decide, by decide, by decide, by decide⟩

/-- C3: the claim states that two fetched rows are placed in the same
MetricSeries exactly when their normalized label sets — the stored,
ingestion-normalized label maps of the rows — are identical.  The code
falsifies both directions: the row scan of getMetricSeries never parses
the stored labels column (the source marks this as a simplification) and
groups by the single-entry service map instead.  Below, over one query
and window in which every row is fetched: two rows with identical stored
label sets but different service names end up with no series containing
both of their points, and two rows with different stored label sets but
one service name end up together in a common series. -/
theorem c3_grouping_ignores_stored_labels :
    ((⟨100, "m", 1, [("env", "prod")], "a"⟩ : StoredMetric).labels =
      (⟨200, "m", 2, [("env", "prod")], "b"⟩ : StoredMetric).labels ∧
     (⟨100, "m", 1, [("env", "prod")], "a"⟩ : StoredMetric) ∈
       fetchRows [⟨100, "m", 1, [("env", "prod")], "a"⟩,
                  ⟨200, "m", 2, [("env", "prod")], "b"⟩]
         (mkMetricQuery "m" []) 0 1000000000000 ∧
     (⟨200, "m", 2, [("env", "prod")], "b"⟩ : StoredMetric) ∈
       fetchRows [⟨100, "m", 1, [("env", "prod")], "a"⟩,
                  ⟨200, "m", 2, [("env", "prod")], "b"⟩]
         (mkMetricQuery "m" []) 0 1000000000000 ∧
     ¬∃ s ∈ getMetricSeries
         [⟨100, "m", 1, [("env", "prod")], "a"⟩,
          ⟨200, "m", 2, [("env", "prod")], "b"⟩]
         (mkMetricQuery "m" []) 0 1000000000000,
       rowPoint ⟨100, "m", 1, [("env", "prod")], "a"⟩ ∈ s.points ∧
       rowPoint ⟨200, "m", 2, [("env", "prod")], "b"⟩ ∈ s.points) ∧
    ((⟨100, "m", 1, [("env", "prod")], "api"⟩ : StoredMetric).labels ≠
      (⟨200, "m", 2, [("env", "dev")], "api"⟩ : StoredMetric).labels ∧
     ∃ s ∈ getMetricSeries
         [⟨100, "m", 1, [("env", "prod")], "api"⟩,
          ⟨200, "m", 2, [("env", "dev")], "api"⟩]
         (mkMetricQuery "m" []) 0 1000000000000,
       rowPoint ⟨100, "m", 1, [("env", "prod")], "api"⟩ ∈ s.points ∧
       rowPoint ⟨200, "m", 2, [("env", "dev")], "api"⟩ ∈ s.points) :=
  ⟨⟨by decide, by decide, by decide, by decide⟩, by decide, by decide⟩

/-- C4, counterexample to the claim as stated: the claim makes the rate
window closed at its left endpoint.  With points at instants 0 and 5
seconds (values 10 and 20) and a 5-second range, the earlier point sits
exactly at the window start, inside the claimed closed-open window, yet
applyRate emits nothing for the series because the scan requires a
timestamp strictly after the window start. -/
theorem c4_counterexample_window_boundary :
    (5000000000 - 5000000000 : Int) ≤ 0 ∧ (0 : Int) < 5000000000 ∧
    applyRate 5000000000 [⟨"m", [], [⟨0, 10, []⟩, ⟨5000000000, 20, []⟩]⟩] =
      [⟨"m", [], []⟩] :=
  ⟨by decide, by decide, by decide⟩

/-- C4, amended: rate emits an output point at index j greater than zero
exactly when some point at an earlier index has its timestamp strictly
after timestamp j minus the range (the window is open at the left
endpoint), the value computed against the nearest such earlier point; and
the two concrete examples of the claim hold: points at 0 and 10 seconds
with values 10 and 30 give no output for a 5-second range and the value 2
at 10 seconds for a 15-second range. -/
theorem c4_rate_window_open_left :
    (∀ (range : Int) (series : List MetricSeries),
      applyRate range series =
        series.map (fun s => ⟨s.metricName, s.labels, ratePointsSpec range s.points⟩)) ∧
    ratePoints 5000000000 [⟨0, 10, []⟩, ⟨10000000000, 30, []⟩] = [] ∧
    ratePoints 15000000000 [⟨0, 10, []⟩, ⟨10000000000, 30, []⟩] =
      [⟨10000000000, 2, []⟩] := by
  refine ⟨fun range series => ?_, by decide, ?_⟩
  · unfold applyRate
    exact List.map_congr_left (fun s _ => by rw [ratePoints_eq_spec])
  · simp [ratePoints, ratePointsAux, findPrevPoint, ratePointValue]
    norm_num

/-- C5, counterexample to the claim as stated: the claim says increase
subtracts the earliest point at or before the window start.  With points
at instants 0, 1 and 10 seconds (values 1, 5, 30) and a 5-second range,
two points lie at or before the 5-second window start of the last point;
the earliest has value 1, so the claim demands 30 - 1 = 29, but the code
scans backward from the current index and subtracts the nearest such
point, emitting 30 - 5 = 25. -/
theorem c5_counterexample_nearest_not_earliest :
    increasePoints 5000000000
        [⟨0, 1, []⟩, ⟨1000000000, 5, []⟩, ⟨10000000000, 30, []⟩] =
      [⟨10000000000, 25, []⟩] ∧
    (0 : Int) ≤ 10000000000 - 5000000000 ∧
    (30 : ℚ) - 1 = 29 ∧ (25 : ℚ) ≠ 29 := by
  refine ⟨?_, by decide, by norm_num, by norm_num⟩
  simp [increasePoints, increasePointsAux, findStartPoint]
  norm_num

/-- C5, amended: at every index j, increase emits timestamp j with value j
minus the value of the nearest (latest-indexed) point at an index up to j
whose timestamp is at or before timestamp j minus the range, and omits the
output point when no such point exists. -/
theorem c5_increase_nearest_at_or_before (range : Int) (series : List MetricSeries) :
    applyIncrease range series =
      series.map (fun s => ⟨s.metricName, s.labels, increasePointsSpec range s.points⟩) := by
  unfold applyIncrease
  exact List.map_congr_left (fun s _ => by rw [increasePoints_eq_spec])

/-- Witness for C5 at the counterexample series (the amended theorem has
only universally quantified variables; this closed instance evaluates both
sides on concrete input). -/
theorem c5_witness :
    applyIncrease 5000000000
        [⟨"m", [], [⟨0, 1, []⟩, ⟨1000000000, 5, []⟩, ⟨10000000000, 30, []⟩]⟩] =
      [⟨"m", [],
        increasePointsSpec 5000000000
          [⟨0, 1, []⟩, ⟨1000000000, 5, []⟩, ⟨10000000000, 30, []⟩]⟩] :=
  c5_increase_nearest_at_or_before 5000000000
    [⟨"m", [], [⟨0, 1, []⟩, ⟨1000000000, 5, []⟩, ⟨10000000000, 30, []⟩]⟩]

/-- C6: on a non-empty input, the sum aggregation yields exactly one
output series with an empty label set, whose timestamps are the ordered
union of the distinct input timestamps (membership, sortedness and
distinctness are stated separately), and whose value at each timestamp is
the sum of the values of exactly the series having a point at exactly that
timestamp; two series with points valued 3 and 4 at one timestamp
aggregate to a single point of value 7. -/
theorem c6_sum_aggregation :
    (∀ (s0 : MetricSeries) (rest : List MetricSeries),
      applySum (s0 :: rest) =
        [⟨s0.metricName, [],
          (allTimestamps (s0 :: rest)).map
            (fun ts => ⟨ts, sumSpecValue (s0 :: rest) ts, []⟩)⟩]) ∧
    (∀ (series : List MetricSeries) (t : Int),
      t ∈ allTimestamps series ↔ ∃ s ∈ series, ∃ p ∈ s.points, p.timestamp = t) ∧
    (∀ series : List MetricSeries, (allTimestamps series).Sorted (· ≤ ·)) ∧
    (∀ series : List MetricSeries, (allTimestamps series).Nodup) ∧
    applySum [⟨"m", [("service", "a")], [⟨100, 3, [("service", "a")]⟩]⟩,
              ⟨"m", [("service", "b")], [⟨100, 4, [("service", "b")]⟩]⟩] =
      [⟨"m", [], [⟨100, 7, []⟩]⟩] := by
  refine ⟨fun s0 rest => ?_, fun series t => ?_, fun series => ?_, fun series => ?_, ?_⟩
  · show [(⟨s0.metricName, [],
        (allTimestamps (s0 :: rest)).map
          (fun ts => ⟨ts, ((s0 :: rest).map (seriesContribution ts)).sum, []⟩)⟩ :
        MetricSeries)] = _
    refine congrArg (fun pts => [(⟨s0.metricName, [], pts⟩ : MetricSeries)]) ?_
    exact List.map_congr_left (fun ts _ => by rw [sum_contribution_eq])
  · unfold allTimestamps
    rw [(List.perm_insertionSort _ _).mem_iff, List.mem_dedup]
    simp only [List.mem_flatten, List.mem_map]
    constructor
    · rintro ⟨l, ⟨s, hs, rfl⟩, hp⟩
      obtain ⟨p, hp1, hp2⟩ := List.mem_map.mp hp
      exact ⟨s, hs, p, hp1, hp2⟩
    · rintro ⟨s, hs, p, hp, rfl⟩
      exact ⟨s.points.map (fun p => p.timestamp), ⟨s, hs, rfl⟩,
        List.mem_map.mpr ⟨p, hp, rfl⟩⟩
  · exact List.sorted_insertionSort _ _
  · exact ((List.perm_insertionSort _ _).nodup_iff).mpr (List.nodup_dedup _)
  · simp [applySum, allTimestamps, seriesContribution]
    norm_num

/-- C7, counterexample to the claim as stated: the claim says both
adapters default to unknown when the service.name attribute value is the
empty string, but the JSON/HTTP extraction returns the first service.name
value verbatim, so a present-but-empty attribute yields the empty string
rather than unknown. -/
theorem c7_counterexample_empty_service_name :
    extractServiceNameFromResource [("service.name", "")] = "" ∧
    ("" : String) ≠ "unknown" :=
  ⟨by decide, by decide⟩

/-- C7, amended: both adapters default to unknown when no service.name
attribute is present; the structured RPC adapter returns the first
non-empty string value of a service.name attribute and falls back to
unknown when every such value is empty or non-string (in particular for a
present-but-empty value), while the JSON/HTTP adapter returns the string
value of the first service.name attribute verbatim, including the empty
string. -/
theorem c7_service_name_extraction :
    (∀ attrs : List (String × String),
      extractServiceNameFromResource attrs = httpServiceNameSpec attrs) ∧
    (∀ attrs : List (String × AnyValue),
      extractServiceName (some attrs) = grpcServiceNameSpec attrs) ∧
    extractServiceName none = "unknown" ∧
    extractServiceName (some [("service.name", AnyValue.str "")]) = "unknown" := by
  refine ⟨fun attrs => ?_, fun attrs => ?_, rfl, by decide⟩
  · induction attrs with
    | nil => rfl
    | cons kv rest ih =>
      obtain ⟨k, v⟩ := kv
      by_cases hk : k = "service.name"
      · simp [extractServiceNameFromResource, httpServiceNameSpec, hk, List.find?_cons]
      · simp only [extractServiceNameFromResource, httpServiceNameSpec,
          List.find?_cons] at ih ⊢
        simp [hk, ih]
  · show extractServiceNameLoop attrs = grpcServiceNameSpec attrs
    induction attrs with
    | nil => rfl
    | cons kv rest ih =>
      obtain ⟨k, v⟩ := kv
      by_cases hk : k = "service.name"
      · by_cases hv : getStringValue v = ""
        · simp only [extractServiceNameLoop, grpcServiceNameSpec,
            List.filterMap_cons] at ih ⊢
          simp [hk, hv, ih]
        · simp [extractServiceNameLoop, grpcServiceNameSpec,
            List.filterMap_cons, hk, hv]
      · simp only [extractServiceNameLoop, grpcServiceNameSpec,
          List.filterMap_cons] at ih ⊢
        simp [hk, ih]

/-- C8: the first three parser examples hold as claimed (the range of five
minutes is 300 seconds, stored as 300 billion nanoseconds).  The fourth
falsifies the claim and contradicts the doc comment of ParseAggregation,
which names exactly this query as its example: ParseAggregation slices the
inner query up to the last closing parenthesis, hands the unbalanced
fragment to Parse, and fails with a missing-closing-parenthesis error,
while the plain Parse entry point treats the query as a call of sum on a
garbled metric name and produces no aggregation at all. -/
theorem c8_parser_examples :
    Parse "http_requests_total" = .ok (mkMetricQuery "http_requests_total" []) ∧
    Parse "http_requests_total\x7bservice=\"api\"\x7d" =
      .ok (mkMetricQuery "http_requests_total" [("service", "api")]) ∧
    Parse "rate(http_requests_total[5m])" =
      .ok ⟨"http_requests_total", [], "rate", 300000000000, 0, none⟩ ∧
    ParseAggregation "sum(http_requests_total) by (service)" =
      .error "missing closing parenthesis" ∧
    Parse "sum(http_requests_total) by (service)" =
      .ok ⟨"http_requests_total) by (service", [], "sum", 0, 0, none⟩ :=
  ⟨by decide, by decide, by decide, by decide, by decide⟩

/-- C9: every function name outside the supported seven and every
aggregation operation outside the supported five make evaluation return
the corresponding unsupported error, carrying no result series. -/
theorem c9_unsupported_rejected :
    (∀ (now rangeDuration : Int) (series : List MetricSeries) (f : String),
      f ∉ (["rate", "increase", "sum", "avg", "count", "min", "max"] : List String) →
      applyFunction now series f rangeDuration =
        .error ("unsupported function: " ++ f)) ∧
    (∀ (now : Int) (series : List MetricSeries) (agg : Aggregation),
      agg.operation ∉ (["sum", "avg", "count", "min", "max"] : List String) →
      applyAggregation now series agg =
        .error ("unsupported aggregation: " ++ agg.operation)) := by
  constructor
  · intro now rangeDuration series f hf
    simp only [List.mem_cons, List.mem_singleton, not_or] at hf
    obtain ⟨h1, h2, h3, h4, h5, h6, h7, _⟩ := hf
    simp [applyFunction, h1, h2, h3, h4, h5, h6, h7]
  · intro now series agg hop
    simp only [List.mem_cons, List.mem_singleton, not_or] at hop
    obtain ⟨h1, h2, h3, h4, h5, _⟩ := hop
    simp [applyAggregation, h1, h2, h3, h4, h5]

/-- Witness for C9 at the unknown name bogus. -/
theorem c9_witness :
    applyFunction 0 [] "bogus" 0 = .error ("unsupported function: " ++ "bogus") ∧
    applyAggregation 0 [] ⟨"bogus", [], []⟩ =
      .error ("unsupported aggregation: " ++ "bogus") :=
  ⟨c9_unsupported_rejected.1 0 0 [] "bogus" (by decide),
   c9_unsupported_rejected.2 0 [] ⟨"bogus", [], []⟩ (by decide)⟩

/-- C10: whenever Evaluate returns successfully, the result carries the
type vector, never matrix or scalar, for every database, query and time
window, including the count, min and max aggregations. -/
theorem c10_result_type_vector (db : List StoredMetric) (q : Query)
    (startNano endNano now : Int) (res : QueryResult)
    (h : Evaluate db q startNano endNano now = .ok res) : res.type = "vector" := by
  unfold Evaluate at h
  split at h
  · simp at h
  · split at h
    · injection h with h2
      rw [← h2]
    · split at h
      · simp at h
      · injection h with h2
        rw [← h2]

/-- Witness for C10: a successful evaluation over the empty database. -/
theorem c10_witness :
    Evaluate [] (mkMetricQuery "m" []) 0 0 0 = .ok ⟨[], "vector"⟩ ∧
    (⟨[], "vector"⟩ : QueryResult).type = "vector" :=
  ⟨by decide,
   c10_result_type_vector [] (mkMetricQuery "m" []) 0 0 0 ⟨[], "vector"⟩ (by decide)⟩

end Telemorph
